import Mathlib

/-!
Verification of the core of `parray.py`, a phased-array simulator.

The core consists of:
* `common_PA_elements` — the element generator: positions, amplitudes and
  phases of the array elements from the array parameters;
* `PhasedArray.calc_field` — the field synthesizer: the superposed scalar
  field of all elements over a square grid;
* `PhasedArray.animate` — the sweep controller: repeated
  generate/synthesize/emit cycles while incrementing `el_phs`.

numpy arrays are modelled as `List ℝ` (1-D) and `List (List ℝ)` (2-D, row
major); floating point is modelled by exact reals.  The mutable
`PhasedArray` object is modelled as a state record `PAState`; each method
becomes a function `PAState → PAState` (plus emitted frames for `animate`).
Rendering, figure handling and video encoding are external collaborators and
are outside the modelled core, as the spec directs.
-/

noncomputable section

namespace Parray

open Real

/-- Model of `np.linspace a b num`: `num` evenly spaced samples from `a` to `b`
(inclusive).  For `num = 1` numpy returns the single sample `[a]`; for
`num = 0` the empty array; otherwise samples are `a + i·(b-a)/(num-1)`. -/
def linspace (a b : ℝ) (num : ℕ) : List ℝ :=
  if num = 1 then [a]
  else (List.range num).map (fun (i : ℕ) => a + (i : ℝ) * ((b - a) / ((num : ℝ) - 1)))

/-- The mutable state of a `PhasedArray` object: the five constructor
parameters, the element layout arrays set by the element generator, and the
grid/field arrays set by `calc_field`.  (The figure/axes handles of the
source are rendering state, outside the modelled core.) -/
structure PAState where
  res : ℕ
  rng : ℝ
  el_sep : ℝ
  el_num : ℕ
  el_phs : ℝ
  el_x : List ℝ
  el_y : List ℝ
  el_amp : List ℝ
  el_phi : List ℝ
  gx : List (List ℝ)
  gy : List (List ℝ)
  z : List (List ℝ)

/-- The derived element layout: the four co-indexed arrays
(`el_x`, `el_y`, `el_amp`, `el_phi`) of a `PhasedArray` state. -/
structure ElementLayout where
  el_x : List ℝ
  el_y : List ℝ
  el_amp : List ℝ
  el_phi : List ℝ

/-- The derived field: the two meshgrid coordinate arrays and the
superposed value matrix (`self._x`, `self._y`, `self._z` in the source). -/
structure Field where
  gx : List (List ℝ)
  gy : List (List ℝ)
  z : List (List ℝ)

/-- Project the element layout out of a state. -/
def layoutOf (s : PAState) : ElementLayout :=
  ⟨s.el_x, s.el_y, s.el_amp, s.el_phi⟩

/-- Project the field out of a state. -/
def fieldOf (s : PAState) : Field :=
  ⟨s.gx, s.gy, s.z⟩

/-- The centered index sequence of `common_PA_elements` (source lines 33–34):
`el_n = linspace(-(el_num - 1.0)/2, (el_num - 1.0)/2, el_num)`. -/
def el_n (num : ℕ) : List ℝ :=
  linspace (-(((num : ℝ) - 1) / 2)) (((num : ℝ) - 1) / 2) num

/-- Source `common_PA_elements` (lines 31–39): generates array elements for a
common array.  `el_x = 2π·el_sep·el_n`, `el_y = el_n·0`, `el_amp = ones`,
`el_phi = el_n·el_phs` (all numpy operations elementwise). -/
def common_PA_elements (s : PAState) : PAState :=
  { s with
    el_x := (el_n s.el_num).map (fun v => 2 * Real.pi * s.el_sep * v)
    el_y := (el_n s.el_num).map (fun v => v * 0)
    el_amp := (el_n s.el_num).map (fun _ => 1)
    el_phi := (el_n s.el_num).map (fun v => v * s.el_phs) }

/-- Model of `np.zeros((n, n))`: the `n × n` all-zero matrix. -/
def zeros (n : ℕ) : List (List ℝ) :=
  (List.range n).map (fun _ => (List.range n).map (fun _ => (0 : ℝ)))

/-- Elementwise matrix addition (numpy `+` on equal-shape 2-D arrays). -/
def matAdd (A B : List (List ℝ)) : List (List ℝ) :=
  List.zipWith (fun r1 r2 => List.zipWith (fun u v => u + v) r1 r2) A B

/-- One element's contribution matrix (source lines 129–134): with
`xt = x0 - xz`, `yt = y0 - yz`, `(xi, yi) = meshgrid(xt, yt)`,
`r = sqrt(xi² + yi²)` and `val = az·sin(r + pz)` — no distance attenuation
(the inverse-square factor is commented out in the source). -/
def elemField (x0 y0 : List ℝ) (xz yz az pz : ℝ) : List (List ℝ) :=
  y0.map (fun yv =>
    x0.map (fun xv =>
      az * Real.sin (Real.sqrt ((xv - xz) ^ 2 + (yv - yz) ^ 2) + pz)))

/-- Python `zip` of the four element arrays (truncates to the shortest). -/
def zip4 : List ℝ → List ℝ → List ℝ → List ℝ → List (ℝ × ℝ × ℝ × ℝ)
  | x :: xs, y :: ys, a :: amps, p :: ps => (x, y, a, p) :: zip4 xs ys amps ps
  | _, _, _, _ => []

/-- The grid axis of `calc_field` (source lines 119–120):
`x0 = y0 = linspace(-2π·rng, 2π·rng, res)`. -/
def gridAxis (s : PAState) : List ℝ :=
  linspace (-(2 * Real.pi * s.rng)) (2 * Real.pi * s.rng) s.res

/-- Source `PhasedArray.calc_field` (lines 116–135): build the grid axis
`x0 = y0 = linspace(-2π·rng, 2π·rng, res)`, zero `self._z`, set
`self._x, self._y = meshgrid(x0, y0)`, then for each zipped element add its
contribution matrix into `self._z`. -/
def calc_field (s : PAState) : PAState :=
  let x0 := gridAxis s
  let y0 := x0
  let elems := zip4 s.el_x s.el_y s.el_amp s.el_phi
  let zfin := elems.foldl
    (fun acc e => matAdd acc (elemField x0 y0 e.1 e.2.1 e.2.2.1 e.2.2.2))
    (zeros s.res)
  { s with
    gx := y0.map (fun _ => x0)
    gy := y0.map (fun yv => x0.map (fun _ => yv))
    z := zfin }

/-- The default value used when reading a frame out of the emitted list. -/
def frameDefault : ElementLayout × Field :=
  (⟨[], [], [], []⟩, ⟨[], [], []⟩)

/-- The body of one iteration of `animate`'s loop as far as the emitted frame
goes: regenerate elements, recompute the field, and read off the
`(ElementLayout, Field)` pair handed to the renderer. -/
def runFrame (s : PAState) : ElementLayout × Field :=
  let s2 := calc_field (common_PA_elements s)
  (layoutOf s2, fieldOf s2)

/-- The full state effect of one iteration of `animate`'s loop (source lines
175–182): run `gen_elements`, then `calc_field`, then increment `el_phs` by
`phase_range / frames`. -/
def stepState (phase_range : ℝ) (frames : ℤ) (s : PAState) : PAState :=
  let s2 := calc_field (common_PA_elements s)
  { s2 with el_phs := s2.el_phs + phase_range / (frames : ℝ) }

/-- The loop of `PhasedArray.animate` (source lines 174–182), unrolled over
its remaining iteration count: each iteration runs `gen_elements`, then
`calc_field`, emits the frame (modelled as the `(layout, field)` pair handed
to the renderer / saved to disk — `runFrame`), and then increments `el_phs`
by `phase_range / frames` (together with the regenerated layout and field
this is `stepState`).  Returns the final state and the emitted frames in
order. -/
def animateLoop (phase_range : ℝ) (frames : ℤ) :
    ℕ → PAState → PAState × List (ElementLayout × Field)
  | 0, s => (s, [])
  | n + 1, s =>
    let rest := animateLoop phase_range frames n (stepState phase_range frames s)
    (rest.1, runFrame s :: rest.2)

/-- Source `PhasedArray.animate` (lines 172–185): `for i in range(frames)`
run the loop body.  Python's `range` on a non-positive argument is empty, so
the iteration count is `frames.toNat`.  (The final `vencode` call is an
external collaborator, outside the modelled core.) -/
def animate (phase_range : ℝ) (frames : ℤ) (s : PAState) :
    PAState × List (ElementLayout × Field) :=
  animateLoop phase_range frames frames.toNat s

/-- Matrix entry read, with numpy's 0.0 as the out-of-range default. -/
def entry (A : List (List ℝ)) (j i : ℕ) : ℝ :=
  (A.getD j []).getD i 0

/-- Shape predicate: `m` rows, each of length `n`. -/
def isShape (A : List (List ℝ)) (m n : ℕ) : Prop :=
  A.length = m ∧ ∀ r ∈ A, r.length = n

/-! ### List-indexing helper lemmas -/

lemma getD_map_of_lt {α β : Type} (f : α → β) (l : List α) (j : ℕ)
    (hj : j < l.length) (d : β) (d0 : α) :
    (l.map f).getD j d = f (l.getD j d0) := by
  induction l generalizing j with
  | nil => simp at hj
  | cons a t ih =>
    cases j with
    | zero => simp [List.getD]
    | succ k =>
      simp only [List.map_cons, List.getD_cons_succ]
      exact ih k (by simpa using hj)

lemma getD_range_map {β : Type} (f : ℕ → β) (n i : ℕ) (hi : i < n) (d : β) :
    ((List.range n).map f).getD i d = f i := by
  rw [getD_map_of_lt f (List.range n) i (by simpa using hi) d 0]
  congr 1
  rw [List.getD_eq_getElem (List.range n) 0 (by simpa using hi)]
  simp

lemma getD_zipWith {α β γ : Type} (f : α → β → γ) (l1 : List α) (l2 : List β)
    (j : ℕ) (h1 : j < l1.length) (h2 : j < l2.length) (d1 : α) (d2 : β) (d3 : γ) :
    (List.zipWith f l1 l2).getD j d3 = f (l1.getD j d1) (l2.getD j d2) := by
  induction l1 generalizing l2 j with
  | nil => simp at h1
  | cons a t ih =>
    cases l2 with
    | nil => simp at h2
    | cons b u =>
      cases j with
      | zero => simp [List.getD]
      | succ k =>
        simp only [List.zipWith_cons_cons, List.getD_cons_succ]
        exact ih u k (by simpa using h1) (by simpa using h2)

/-! ### linspace lemmas -/

lemma length_linspace (a b : ℝ) (n : ℕ) : (linspace a b n).length = n := by
  unfold linspace
  split
  · simp [*]
  · simp

lemma getD_linspace (a b : ℝ) (n : ℕ) (h2 : 2 ≤ n) (i : ℕ) (hi : i < n) :
    (linspace a b n).getD i 0 = a + (i : ℝ) * ((b - a) / ((n : ℝ) - 1)) := by
  unfold linspace
  rw [if_neg (by omega)]
  exact getD_range_map _ n i hi 0

lemma getD_linspace_one (a b : ℝ) : (linspace a b 1).getD 0 0 = a := by
  simp [linspace]

/-! ### Matrix lemmas -/

lemma mem_zipWith {α β γ : Type} {f : α → β → γ} {l1 : List α} {l2 : List β} {c : γ}
    (h : c ∈ List.zipWith f l1 l2) : ∃ a ∈ l1, ∃ b ∈ l2, c = f a b := by
  induction l1 generalizing l2 with
  | nil => simp at h
  | cons a t ih =>
    cases l2 with
    | nil => simp at h
    | cons b u =>
      simp only [List.zipWith_cons_cons, List.mem_cons] at h
      rcases h with h | h
      · exact ⟨a, by simp, b, by simp, h⟩
      · obtain ⟨a', ha', b', hb', rfl⟩ := ih h
        exact ⟨a', by simp [ha'], b', by simp [hb'], rfl⟩

lemma entry_zeros (n j i : ℕ) : entry (zeros n) j i = 0 := by
  unfold entry zeros
  by_cases hj : j < n
  · rw [getD_range_map _ n j hj []]
    by_cases hi : i < n
    · rw [getD_range_map _ n i hi 0]
    · exact List.getD_eq_default _ _ (by simpa using Nat.le_of_not_lt hi)
  · have h1 : ((List.range n).map fun _ => (List.range n).map fun _ => (0 : ℝ)).getD j [] = [] :=
      List.getD_eq_default _ _ (by simpa using Nat.le_of_not_lt hj)
    rw [h1]
    rfl

lemma isShape_zeros (n : ℕ) : isShape (zeros n) n n := by
  refine ⟨by simp [zeros], ?_⟩
  intro r hr
  simp only [zeros, List.mem_map] at hr
  obtain ⟨k, -, rfl⟩ := hr
  simp

lemma isShape_elemField (x0 y0 : List ℝ) (xz yz az pz : ℝ) :
    isShape (elemField x0 y0 xz yz az pz) y0.length x0.length := by
  refine ⟨by simp [elemField], ?_⟩
  intro r hr
  simp only [elemField, List.mem_map] at hr
  obtain ⟨yv, -, rfl⟩ := hr
  simp

lemma isShape_matAdd {A B : List (List ℝ)} {m n : ℕ}
    (hA : isShape A m n) (hB : isShape B m n) : isShape (matAdd A B) m n := by
  refine ⟨by simp [matAdd, List.length_zipWith, hA.1, hB.1], ?_⟩
  intro r hr
  obtain ⟨r1, hr1, r2, hr2, rfl⟩ := mem_zipWith hr
  simp [List.length_zipWith, hA.2 r1 hr1, hB.2 r2 hr2]

lemma entry_matAdd {A B : List (List ℝ)} {m n : ℕ}
    (hA : isShape A m n) (hB : isShape B m n) (j i : ℕ) (hj : j < m) :
    entry (matAdd A B) j i = entry A j i + entry B j i := by
  unfold entry matAdd
  have hjA : j < A.length := hA.1 ▸ hj
  have hjB : j < B.length := hB.1 ▸ hj
  rw [getD_zipWith _ A B j hjA hjB [] [] []]
  have hmA : A.getD j [] ∈ A := by
    rw [List.getD_eq_getElem A [] hjA]; exact List.getElem_mem hjA
  have hmB : B.getD j [] ∈ B := by
    rw [List.getD_eq_getElem B [] hjB]; exact List.getElem_mem hjB
  by_cases hi : i < n
  · rw [getD_zipWith _ _ _ i (by rw [hA.2 _ hmA]; exact hi) (by rw [hB.2 _ hmB]; exact hi) 0 0 0]
  · rw [List.getD_eq_default _ _ (by rw [List.length_zipWith, hA.2 _ hmA, hB.2 _ hmB]; omega),
      List.getD_eq_default _ _ (by rw [hA.2 _ hmA]; omega),
      List.getD_eq_default _ _ (by rw [hB.2 _ hmB]; omega)]
    norm_num

lemma entry_elemField (x0 y0 : List ℝ) (xz yz az pz : ℝ) (j i : ℕ)
    (hj : j < y0.length) (hi : i < x0.length) :
    entry (elemField x0 y0 xz yz az pz) j i =
      az * Real.sin (Real.sqrt ((x0.getD i 0 - xz) ^ 2 + (y0.getD j 0 - yz) ^ 2) + pz) := by
  unfold entry elemField
  rw [getD_map_of_lt _ y0 j hj [] 0, getD_map_of_lt _ x0 i hi 0 0]

/-! ### zip4 lemmas -/

lemma length_zip4 (xs ys amps ps : List ℝ) :
    (zip4 xs ys amps ps).length =
      min (min (min xs.length ys.length) amps.length) ps.length := by
  induction xs generalizing ys amps ps with
  | nil => simp [zip4]
  | cons x xt ih =>
    cases ys with
    | nil => simp [zip4]
    | cons y yt =>
      cases amps with
      | nil => simp [zip4]
      | cons a ampt =>
        cases ps with
        | nil => simp [zip4]
        | cons p pt =>
          simp only [zip4, List.length_cons, ih]
          omega

lemma getD_zip4 (xs ys amps ps : List ℝ) (k : ℕ)
    (hk : k < (zip4 xs ys amps ps).length) :
    (zip4 xs ys amps ps).getD k (0, 0, 0, 0) =
      (xs.getD k 0, ys.getD k 0, amps.getD k 0, ps.getD k 0) := by
  induction xs generalizing ys amps ps k with
  | nil => simp [zip4] at hk
  | cons x xt ih =>
    cases ys with
    | nil => simp [zip4] at hk
    | cons y yt =>
      cases amps with
      | nil => simp [zip4] at hk
      | cons a ampt =>
        cases ps with
        | nil => simp [zip4] at hk
        | cons p pt =>
          cases k with
          | zero => simp [zip4, List.getD]
          | succ m =>
            simp only [zip4, List.getD_cons_succ]
            exact ih yt ampt pt m (by simpa [zip4] using hk)

/-! ### The accumulation loop of `calc_field` -/

/-- The contribution of one zipped element `(xz, yz, az, pz)` at grid point
`(j, i)`: `az · sin(sqrt((x0ᵢ - xz)² + (y0ⱼ - yz)²) + pz)`. -/
def contrib (x0 y0 : List ℝ) (e : ℝ × ℝ × ℝ × ℝ) (j i : ℕ) : ℝ :=
  e.2.2.1 * Real.sin
    (Real.sqrt ((x0.getD i 0 - e.1) ^ 2 + (y0.getD j 0 - e.2.1) ^ 2) + e.2.2.2)

lemma isShape_foldl_elemField (x0 y0 : List ℝ) (es : List (ℝ × ℝ × ℝ × ℝ))
    (Z : List (List ℝ)) (hZ : isShape Z y0.length x0.length) :
    isShape (es.foldl
      (fun acc e => matAdd acc (elemField x0 y0 e.1 e.2.1 e.2.2.1 e.2.2.2)) Z)
      y0.length x0.length := by
  induction es generalizing Z with
  | nil => exact hZ
  | cons e t ih =>
    exact ih _ (isShape_matAdd hZ (isShape_elemField x0 y0 e.1 e.2.1 e.2.2.1 e.2.2.2))

lemma entry_foldl_elemField (x0 y0 : List ℝ) (es : List (ℝ × ℝ × ℝ × ℝ))
    (Z : List (List ℝ)) (hZ : isShape Z y0.length x0.length)
    (j i : ℕ) (hj : j < y0.length) (hi : i < x0.length) :
    entry (es.foldl
      (fun acc e => matAdd acc (elemField x0 y0 e.1 e.2.1 e.2.2.1 e.2.2.2)) Z) j i =
      entry Z j i + ∑ k ∈ Finset.range es.length, contrib x0 y0 (es.getD k (0, 0, 0, 0)) j i := by
  induction es generalizing Z with
  | nil => simp
  | cons e t ih =>
    have hF := isShape_elemField x0 y0 e.1 e.2.1 e.2.2.1 e.2.2.2
    have hZ' := isShape_matAdd hZ hF
    rw [List.foldl_cons, ih _ hZ', entry_matAdd hZ hF j i hj,
      entry_elemField x0 y0 e.1 e.2.1 e.2.2.1 e.2.2.2 j i hj hi,
      List.length_cons, Finset.sum_range_succ']
    simp only [List.getD_cons_succ, List.getD_cons_zero]
    rw [show contrib x0 y0 e j i =
      e.2.2.1 * Real.sin
        (Real.sqrt ((x0.getD i 0 - e.1) ^ 2 + (y0.getD j 0 - e.2.1) ^ 2) + e.2.2.2) from rfl]
    ring

/-! ### Projection lemmas for `calc_field` and `common_PA_elements` -/

lemma length_gridAxis (s : PAState) : (gridAxis s).length = s.res :=
  length_linspace _ _ _

lemma calc_field_z (s : PAState) :
    (calc_field s).z = (zip4 s.el_x s.el_y s.el_amp s.el_phi).foldl
      (fun acc e => matAdd acc (elemField (gridAxis s) (gridAxis s) e.1 e.2.1 e.2.2.1 e.2.2.2))
      (zeros s.res) := rfl

lemma calc_field_gx (s : PAState) :
    (calc_field s).gx = (gridAxis s).map (fun _ => gridAxis s) := rfl

lemma calc_field_gy (s : PAState) :
    (calc_field s).gy = (gridAxis s).map (fun yv => (gridAxis s).map (fun _ => yv)) := rfl

lemma length_el_n (n : ℕ) : (el_n n).length = n :=
  length_linspace _ _ _

lemma getD_el_n (n i : ℕ) (hi : i < n) :
    (el_n n).getD i 0 = (i : ℝ) - ((n : ℝ) - 1) / 2 := by
  unfold el_n
  rcases Nat.lt_or_ge n 2 with h | h
  · have hn1 : n = 1 := by omega
    have hi0 : i = 0 := by omega
    subst hn1; subst hi0
    rw [getD_linspace_one]
    norm_num
  · rw [getD_linspace _ _ n h i hi]
    have hne : ((n : ℝ) - 1) ≠ 0 := by
      have h2 : (2 : ℝ) ≤ (n : ℝ) := by exact_mod_cast h
      linarith
    field_simp
    ring

lemma common_el_x_getD (s : PAState) (i : ℕ) (hi : i < s.el_num) :
    (common_PA_elements s).el_x.getD i 0 =
      2 * Real.pi * s.el_sep * ((i : ℝ) - ((s.el_num : ℝ) - 1) / 2) := by
  show ((el_n s.el_num).map (fun v => 2 * Real.pi * s.el_sep * v)).getD i 0 = _
  rw [getD_map_of_lt _ _ i (by rw [length_el_n]; exact hi) 0 0, getD_el_n s.el_num i hi]

lemma common_el_y_getD (s : PAState) (i : ℕ) (hi : i < s.el_num) :
    (common_PA_elements s).el_y.getD i 0 = 0 := by
  show ((el_n s.el_num).map (fun v => v * 0)).getD i 0 = _
  rw [getD_map_of_lt _ _ i (by rw [length_el_n]; exact hi) 0 0]
  ring

lemma common_el_amp_getD (s : PAState) (i : ℕ) (hi : i < s.el_num) :
    (common_PA_elements s).el_amp.getD i 0 = 1 := by
  show ((el_n s.el_num).map (fun _ => (1 : ℝ))).getD i 0 = _
  rw [getD_map_of_lt _ _ i (by rw [length_el_n]; exact hi) 0 0]

lemma common_el_phi_getD (s : PAState) (i : ℕ) (hi : i < s.el_num) :
    (common_PA_elements s).el_phi.getD i 0 =
      ((i : ℝ) - ((s.el_num : ℝ) - 1) / 2) * s.el_phs := by
  show ((el_n s.el_num).map (fun v => v * s.el_phs)).getD i 0 = _
  rw [getD_map_of_lt _ _ i (by rw [length_el_n]; exact hi) 0 0, getD_el_n s.el_num i hi]

lemma common_lengths (s : PAState) :
    (common_PA_elements s).el_x.length = s.el_num ∧
    (common_PA_elements s).el_y.length = s.el_num ∧
    (common_PA_elements s).el_amp.length = s.el_num ∧
    (common_PA_elements s).el_phi.length = s.el_num := by
  refine ⟨?_, ?_, ?_, ?_⟩ <;>
    simp [common_PA_elements, length_el_n]

/-- The value matrix of `calc_field`, entry by entry: the superposition sum
over the (equal-length) element arrays. -/
lemma entry_calc_field_z (s : PAState) (n : ℕ)
    (hx : s.el_x.length = n) (hy : s.el_y.length = n)
    (ha : s.el_amp.length = n) (hp : s.el_phi.length = n)
    (j i : ℕ) (hj : j < s.res) (hi : i < s.res) :
    entry (calc_field s).z j i =
      ∑ k ∈ Finset.range n,
        s.el_amp.getD k 0 * Real.sin
          (Real.sqrt (((gridAxis s).getD i 0 - s.el_x.getD k 0) ^ 2 +
            ((gridAxis s).getD j 0 - s.el_y.getD k 0) ^ 2) + s.el_phi.getD k 0) := by
  rw [calc_field_z]
  have hG : (gridAxis s).length = s.res := length_gridAxis s
  have hZ : isShape (zeros s.res) (gridAxis s).length (gridAxis s).length := by
    rw [hG]; exact isShape_zeros s.res
  rw [entry_foldl_elemField (gridAxis s) (gridAxis s) _ _ hZ j i (by rw [hG]; exact hj)
    (by rw [hG]; exact hi), entry_zeros, zero_add]
  have hlen : (zip4 s.el_x s.el_y s.el_amp s.el_phi).length = n := by
    rw [length_zip4, hx, hy, ha, hp]; omega
  rw [hlen]
  refine Finset.sum_congr rfl (fun k hk => ?_)
  rw [Finset.mem_range] at hk
  rw [getD_zip4 _ _ _ _ k (by rw [hlen]; exact hk)]
  rfl

lemma entry_calc_field_gx (s : PAState) (j i : ℕ) (hj : j < s.res) :
    entry (calc_field s).gx j i = (gridAxis s).getD i 0 := by
  rw [calc_field_gx]
  unfold entry
  rw [getD_map_of_lt _ _ j (by rw [length_gridAxis]; exact hj) [] 0]

lemma entry_calc_field_gy (s : PAState) (j i : ℕ) (hj : j < s.res) (hi : i < s.res) :
    entry (calc_field s).gy j i = (gridAxis s).getD j 0 := by
  rw [calc_field_gy]
  unfold entry
  rw [getD_map_of_lt _ _ j (by rw [length_gridAxis]; exact hj) [] 0,
    getD_map_of_lt _ _ i (by rw [length_gridAxis]; exact hi) 0 0]

/-! ### Claim theorems -/

/-- C1: for every state with `res ≥ 2` and any element layout whose four
arrays have a common length `n`, each grid point `(j, i)` of the synthesized
field carries the value `∑ k, el_amp[k] · sin(r_k + el_phi[k])` with
`r_k = sqrt((x - el_x[k])² + (y - el_y[k])²)` the Euclidean distance from
element `k` to the grid point, over the meshgrid of
`linspace(-2π·rng, 2π·rng, res)` on both axes, with no distance
attenuation factor. -/
theorem calc_field_superposition (s : PAState) (n : ℕ) (h2 : 2 ≤ s.res)
    (hx : s.el_x.length = n) (hy : s.el_y.length = n)
    (ha : s.el_amp.length = n) (hp : s.el_phi.length = n)
    (j i : ℕ) (hj : j < s.res) (hi : i < s.res) :
    entry (calc_field s).gx j i =
      (linspace (-(2 * Real.pi * s.rng)) (2 * Real.pi * s.rng) s.res).getD i 0 ∧
    entry (calc_field s).gy j i =
      (linspace (-(2 * Real.pi * s.rng)) (2 * Real.pi * s.rng) s.res).getD j 0 ∧
    entry (calc_field s).z j i =
      ∑ k ∈ Finset.range n,
        s.el_amp.getD k 0 * Real.sin
          (Real.sqrt ((entry (calc_field s).gx j i - s.el_x.getD k 0) ^ 2 +
            (entry (calc_field s).gy j i - s.el_y.getD k 0) ^ 2) + s.el_phi.getD k 0) := by
  rw [entry_calc_field_gx s j i hj, entry_calc_field_gy s j i hj hi]
  exact ⟨rfl, rfl, entry_calc_field_z s n hx hy ha hp j i hj hi⟩

/-- C2: for every state with `el_num ≥ 1`, the common element generator
produces four arrays of length `el_num` with, for `n_i = i - (el_num-1)/2`,
`el_x[i] = 2π·el_sep·n_i`, `el_y[i] = 0`, `el_amp[i] = 1` and
`el_phi[i] = n_i·el_phs`. -/
theorem common_PA_elements_spec (s : PAState) (h1 : 1 ≤ s.el_num) :
    (common_PA_elements s).el_x.length = s.el_num ∧
    (common_PA_elements s).el_y.length = s.el_num ∧
    (common_PA_elements s).el_amp.length = s.el_num ∧
    (common_PA_elements s).el_phi.length = s.el_num ∧
    ∀ i : ℕ, i < s.el_num →
      (common_PA_elements s).el_x.getD i 0 =
        2 * Real.pi * s.el_sep * ((i : ℝ) - ((s.el_num : ℝ) - 1) / 2) ∧
      (common_PA_elements s).el_y.getD i 0 = 0 ∧
      (common_PA_elements s).el_amp.getD i 0 = 1 ∧
      (common_PA_elements s).el_phi.getD i 0 =
        ((i : ℝ) - ((s.el_num : ℝ) - 1) / 2) * s.el_phs := by
  obtain ⟨hLx, hLy, hLa, hLp⟩ := common_lengths s
  exact ⟨hLx, hLy, hLa, hLp, fun i hi =>
    ⟨common_el_x_getD s i hi, common_el_y_getD s i hi,
     common_el_amp_getD s i hi, common_el_phi_getD s i hi⟩⟩

/-- C4: for every state with `res ≥ 2`, the value matrix and both meshgrid
coordinate matrices produced by `calc_field` are `res × res`. -/
theorem calc_field_shapes (s : PAState) (h2 : 2 ≤ s.res) :
    isShape (calc_field s).z s.res s.res ∧
    isShape (calc_field s).gx s.res s.res ∧
    isShape (calc_field s).gy s.res s.res := by
  have hG : (gridAxis s).length = s.res := length_gridAxis s
  refine ⟨?_, ?_, ?_⟩
  · have h := isShape_foldl_elemField (gridAxis s) (gridAxis s)
      (zip4 s.el_x s.el_y s.el_amp s.el_phi) (zeros s.res)
      (by rw [hG]; exact isShape_zeros s.res)
    rw [hG] at h
    rw [calc_field_z]
    exact h
  · rw [calc_field_gx]
    refine ⟨by simp [hG], ?_⟩
    intro r hr
    simp only [List.mem_map] at hr
    obtain ⟨v, -, rfl⟩ := hr
    exact hG
  · rw [calc_field_gy]
    refine ⟨by simp [hG], ?_⟩
    intro r hr
    simp only [List.mem_map] at hr
    obtain ⟨v, -, rfl⟩ := hr
    simp [hG]

/-- C5: degenerate element counts are valid: with `el_num = 0` the
generator-then-synthesizer pipeline yields an all-zero value matrix, and
with `el_num = 1` every entry is exactly the single element's contribution
`el_amp[0] · sin(r₀ + el_phi[0])`. -/
theorem degenerate_element_counts (s : PAState) (j i : ℕ)
    (hj : j < s.res) (hi : i < s.res) :
    (s.el_num = 0 → entry (calc_field (common_PA_elements s)).z j i = 0) ∧
    (s.el_num = 1 → entry (calc_field (common_PA_elements s)).z j i =
      (common_PA_elements s).el_amp.getD 0 0 * Real.sin
        (Real.sqrt
          (((gridAxis s).getD i 0 - (common_PA_elements s).el_x.getD 0 0) ^ 2 +
            ((gridAxis s).getD j 0 - (common_PA_elements s).el_y.getD 0 0) ^ 2) +
          (common_PA_elements s).el_phi.getD 0 0)) := by
  obtain ⟨hLx, hLy, hLa, hLp⟩ := common_lengths s
  have hG : gridAxis (common_PA_elements s) = gridAxis s := rfl
  have hmain := entry_calc_field_z (common_PA_elements s) s.el_num hLx hLy hLa hLp j i hj hi
  rw [hG] at hmain
  constructor
  · intro h0
    rw [hmain, h0]
    simp
  · intro h1
    rw [hmain, h1, Finset.sum_range_one]

/-! ### Reflection symmetry (broadside case) -/

lemma gridAxis_reflect (s : PAState) (h2 : 2 ≤ s.res) (i : ℕ) (hi : i < s.res) :
    (gridAxis s).getD (s.res - 1 - i) 0 = -((gridAxis s).getD i 0) := by
  unfold gridAxis
  rw [getD_linspace _ _ _ h2 _ (by omega), getD_linspace _ _ _ h2 i hi]
  have hcast : ((s.res - 1 - i : ℕ) : ℝ) = (s.res : ℝ) - ((i : ℝ) + 1) := by
    rw [show s.res - 1 - i = s.res - (i + 1) from by omega, Nat.cast_sub hi]
    push_cast
    ring
  rw [hcast]
  have hne : ((s.res : ℝ) - 1) ≠ 0 := by
    have h2' : (2 : ℝ) ≤ (s.res : ℝ) := by exact_mod_cast h2
    linarith
  field_simp
  ring

lemma common_el_x_reflect (s : PAState) (k : ℕ) (hk : k < s.el_num) :
    (common_PA_elements s).el_x.getD (s.el_num - 1 - k) 0 =
      -((common_PA_elements s).el_x.getD k 0) := by
  rw [common_el_x_getD s _ (by omega), common_el_x_getD s k hk]
  have hcast : ((s.el_num - 1 - k : ℕ) : ℝ) = (s.el_num : ℝ) - ((k : ℝ) + 1) := by
    rw [show s.el_num - 1 - k = s.el_num - (k + 1) from by omega, Nat.cast_sub hk]
    push_cast
    ring
  rw [hcast]
  ring

/-- C6: with `el_phs = 0` (broadside), the field of the common array is
symmetric under the reflection `x → -x` of the grid: entry `(j, i)` equals
entry `(j, res-1-i)`. -/
theorem broadside_reflection_symmetry (s : PAState) (hphs : s.el_phs = 0)
    (j i : ℕ) (hj : j < s.res) (hi : i < s.res) :
    entry (calc_field (common_PA_elements s)).z j i =
      entry (calc_field (common_PA_elements s)).z j (s.res - 1 - i) := by
  obtain ⟨hLx, hLy, hLa, hLp⟩ := common_lengths s
  rcases Nat.lt_or_ge s.res 2 with hres | hres
  · have hii : s.res - 1 - i = i := by omega
    rw [hii]
  · have hi' : s.res - 1 - i < s.res := by omega
    have hG : gridAxis (common_PA_elements s) = gridAxis s := rfl
    have h1 := entry_calc_field_z (common_PA_elements s) s.el_num hLx hLy hLa hLp j i hj hi
    have h2 := entry_calc_field_z (common_PA_elements s) s.el_num hLx hLy hLa hLp j
      (s.res - 1 - i) hj hi'
    rw [hG] at h1 h2
    rw [h1, h2, gridAxis_reflect s hres i hi]
    conv_rhs => rw [← Finset.sum_range_reflect]
    refine Finset.sum_congr rfl (fun k hk => ?_)
    rw [Finset.mem_range] at hk
    have hk' : s.el_num - 1 - k < s.el_num := by omega
    rw [common_el_amp_getD s k hk, common_el_amp_getD s _ hk',
      common_el_y_getD s k hk, common_el_y_getD s _ hk',
      common_el_phi_getD s k hk, common_el_phi_getD s _ hk',
      common_el_x_reflect s k hk, hphs]
    simp only [mul_zero, add_zero, one_mul, sub_zero]
    congr 1
    congr 1
    ring

/-! ### Sweep controller lemmas -/

lemma stepState_el_phs (pr : ℝ) (F : ℤ) (s : PAState) :
    (stepState pr F s).el_phs = s.el_phs + pr / (F : ℝ) := rfl

lemma animateLoop_length (pr : ℝ) (F : ℤ) (n : ℕ) (s : PAState) :
    (animateLoop pr F n s).2.length = n := by
  induction n generalizing s with
  | zero => rfl
  | succ m ih => simp [animateLoop, ih]

lemma animateLoop_el_phs (pr : ℝ) (F : ℤ) (n : ℕ) (s : PAState) :
    (animateLoop pr F n s).1.el_phs = s.el_phs + (n : ℝ) * (pr / (F : ℝ)) := by
  induction n generalizing s with
  | zero => simp [animateLoop]
  | succ m ih =>
    simp only [animateLoop]
    rw [ih, stepState_el_phs]
    push_cast
    ring

lemma animate_final_el_phs (s : PAState) (pr : ℝ) (N : ℤ) (hN : 0 < N) :
    (animate pr N s).1.el_phs = s.el_phs + pr := by
  unfold animate
  rw [animateLoop_el_phs]
  have hne : ((N : ℝ)) ≠ 0 := by
    have : (0 : ℝ) < (N : ℝ) := by exact_mod_cast hN
    linarith
  have hcast : ((N.toNat : ℕ) : ℝ) = (N : ℝ) := by
    exact_mod_cast congrArg (fun z : ℤ => (z : ℝ)) (Int.toNat_of_nonneg hN.le)
  rw [hcast, mul_div_assoc', mul_comm, mul_div_assoc, div_self hne, mul_one]

lemma runFrame_congr (s1 s2 : PAState) (hres : s1.res = s2.res)
    (hrng : s1.rng = s2.rng) (hsep : s1.el_sep = s2.el_sep)
    (hnum : s1.el_num = s2.el_num) (hphs : s1.el_phs = s2.el_phs) :
    runFrame s1 = runFrame s2 := by
  simp only [runFrame, layoutOf, fieldOf, calc_field, common_PA_elements, gridAxis, el_n,
    hres, hrng, hsep, hnum, hphs]

lemma animateLoop_getD (pr : ℝ) (F : ℤ) (n : ℕ) (s : PAState) (i : ℕ) (hi : i < n) :
    (animateLoop pr F n s).2.getD i frameDefault =
      runFrame { s with el_phs := s.el_phs + (i : ℝ) * (pr / (F : ℝ)) } := by
  induction n generalizing s i with
  | zero => omega
  | succ m ih =>
    simp only [animateLoop]
    cases i with
    | zero =>
      rw [List.getD_cons_zero]
      apply runFrame_congr <;> first
        | rfl
        | · show s.el_phs = s.el_phs + ((0 : ℕ) : ℝ) * (pr / (F : ℝ))
            push_cast
            ring
    | succ k =>
      rw [List.getD_cons_succ, ih (stepState pr F s) k (by omega)]
      apply runFrame_congr <;> first
        | rfl
        | · show s.el_phs + pr / (F : ℝ) + (k : ℝ) * (pr / (F : ℝ)) =
              s.el_phs + ((k + 1 : ℕ) : ℝ) * (pr / (F : ℝ))
            push_cast
            ring

/-! ### Sweep claim theorems -/

/-- C3: for every positive `frames = N`, `animate` performs exactly `N`
generate-synthesize-emit iterations, yielding exactly `N`
`(ElementLayout, Field)` pairs, and the `N` increments of
`phase_range / frames` applied to `el_phs` sum exactly to `phase_range`
across the full sweep. -/
theorem sweep_length_and_phase_total (s : PAState) (pr : ℝ) (N : ℤ) (hN : 0 < N) :
    ((animate pr N s).2.length : ℤ) = N ∧
    (animate pr N s).1.el_phs = s.el_phs + pr := by
  constructor
  · show (((animateLoop pr N N.toNat s).2.length : ℕ) : ℤ) = N
    rw [animateLoop_length]
    exact Int.toNat_of_nonneg hN.le
  · exact animate_final_el_phs s pr N hN

/-- C7: generating elements and then synthesizing the field is a pure
function of the five array parameters: two states that agree on
`res, rng, el_sep, el_num, el_phs` (whatever junk their layout and field
arrays hold) yield identical fields and identical layouts, so running the
pipeline twice on identical inputs gives identical `Field` values. -/
theorem generator_synthesizer_deterministic (s1 s2 : PAState)
    (hres : s1.res = s2.res) (hrng : s1.rng = s2.rng) (hsep : s1.el_sep = s2.el_sep)
    (hnum : s1.el_num = s2.el_num) (hphs : s1.el_phs = s2.el_phs) :
    fieldOf (calc_field (common_PA_elements s1)) =
      fieldOf (calc_field (common_PA_elements s2)) ∧
    layoutOf (calc_field (common_PA_elements s1)) =
      layoutOf (calc_field (common_PA_elements s2)) := by
  have h := runFrame_congr s1 s2 hres hrng hsep hnum hphs
  exact ⟨congrArg Prod.snd h, congrArg Prod.fst h⟩

/-- C9: frame `i` (0-based) of the sweep is produced with
`el_phs = initial + i·(phase_range/frames)` — the increment is applied after
each frame is generated and saved, so frame 0 uses the unmodified initial
phase step — and after the sweep the mutated `el_phs` persists on the state
as `initial + phase_range`. -/
theorem sweep_phase_schedule (s : PAState) (pr : ℝ) (N : ℤ) (hN : 0 < N) :
    (∀ i : ℕ, i < N.toNat →
      (animate pr N s).2.getD i frameDefault =
        runFrame { s with el_phs := s.el_phs + (i : ℝ) * (pr / (N : ℝ)) }) ∧
    (animate pr N s).1.el_phs = s.el_phs + pr := by
  exact ⟨fun i hi => animateLoop_getD pr N N.toNat s i hi,
    animate_final_el_phs s pr N hN⟩

/-- C8 (counterexample): `animate` called with `frames = -1` neither raises
nor validates anything: it returns normally with an empty frame sequence and
an unchanged state, contrary to an InvalidArgument-style failure. -/
theorem animate_negative_frames_counterexample :
    (animate 1 (-1) ⟨4, 1, 1, 2, 0, [], [], [], [], [], [], []⟩).2 = [] ∧
    (animate 1 (-1) ⟨4, 1, 1, 2, 0, [], [], [], [], [], [], []⟩).1 =
      ⟨4, 1, 1, 2, 0, [], [], [], [], [], [], []⟩ :=
  ⟨rfl, rfl⟩

/-- C8 (amended): no argument validation exists; `animate` with any
non-positive `frames` (zero or negative) is a silent no-op: it yields the
empty frame sequence and leaves the state unchanged. -/
theorem animate_nonpositive_frames_noop (pr : ℝ) (N : ℤ) (s : PAState) (hN : N ≤ 0) :
    animate pr N s = (s, []) := by
  unfold animate
  rw [Int.toNat_of_nonpos hN]
  rfl

/-- C10: `calc_field` writes only the grid and value arrays, leaving all
five configuration parameters and all four element-layout arrays unchanged;
`common_PA_elements` writes only the element-layout arrays, leaving all five
configuration parameters unchanged. -/
theorem frame_condition_calc_and_gen (s : PAState) :
    (calc_field s).res = s.res ∧ (calc_field s).rng = s.rng ∧
    (calc_field s).el_sep = s.el_sep ∧ (calc_field s).el_num = s.el_num ∧
    (calc_field s).el_phs = s.el_phs ∧ (calc_field s).el_x = s.el_x ∧
    (calc_field s).el_y = s.el_y ∧ (calc_field s).el_amp = s.el_amp ∧
    (calc_field s).el_phi = s.el_phi ∧
    (common_PA_elements s).res = s.res ∧ (common_PA_elements s).rng = s.rng ∧
    (common_PA_elements s).el_sep = s.el_sep ∧
    (common_PA_elements s).el_num = s.el_num ∧
    (common_PA_elements s).el_phs = s.el_phs :=
  ⟨rfl, rfl, rfl, rfl, rfl, rfl, rfl, rfl, rfl, rfl, rfl, rfl, rfl, rfl⟩

/-! ### Concrete instantiations -/

/-- A small concrete state: `res = 2`, `rng = 1`, `el_sep = 1`, `el_num = 1`,
`el_phs = 0`, with a one-element layout already in place. -/
def sample : PAState :=
  ⟨2, 1, 1, 1, 0, [0], [0], [1], [0], [], [], []⟩

/-- A state with the same five array parameters as `sample` but different
layout and field arrays. -/
def sample2 : PAState :=
  ⟨2, 1, 1, 1, 0, [5], [7], [9], [11], [[3]], [], []⟩

/-- Witness for C1 at `sample`, grid point `(0, 1)`. -/
theorem calc_field_superposition_witness :
    2 ≤ sample.res ∧ sample.el_x.length = 1 ∧ sample.el_y.length = 1 ∧
    sample.el_amp.length = 1 ∧ sample.el_phi.length = 1 ∧
    (0 : ℕ) < sample.res ∧ (1 : ℕ) < sample.res ∧
    (entry (calc_field sample).gx 0 1 =
      (linspace (-(2 * Real.pi * sample.rng)) (2 * Real.pi * sample.rng) sample.res).getD 1 0 ∧
    entry (calc_field sample).gy 0 1 =
      (linspace (-(2 * Real.pi * sample.rng)) (2 * Real.pi * sample.rng) sample.res).getD 0 0 ∧
    entry (calc_field sample).z 0 1 =
      ∑ k ∈ Finset.range 1,
        sample.el_amp.getD k 0 * Real.sin
          (Real.sqrt ((entry (calc_field sample).gx 0 1 - sample.el_x.getD k 0) ^ 2 +
            (entry (calc_field sample).gy 0 1 - sample.el_y.getD k 0) ^ 2) +
            sample.el_phi.getD k 0)) :=
  ⟨by decide, rfl, rfl, rfl, rfl, by decide, by decide,
    calc_field_superposition sample 1 (by decide) rfl rfl rfl rfl 0 1 (by decide) (by decide)⟩

/-- Witness for C2 at `sample`. -/
theorem common_PA_elements_spec_witness :
    1 ≤ sample.el_num ∧
    ((common_PA_elements sample).el_x.length = sample.el_num ∧
    (common_PA_elements sample).el_y.length = sample.el_num ∧
    (common_PA_elements sample).el_amp.length = sample.el_num ∧
    (common_PA_elements sample).el_phi.length = sample.el_num ∧
    ∀ i : ℕ, i < sample.el_num →
      (common_PA_elements sample).el_x.getD i 0 =
        2 * Real.pi * sample.el_sep * ((i : ℝ) - ((sample.el_num : ℝ) - 1) / 2) ∧
      (common_PA_elements sample).el_y.getD i 0 = 0 ∧
      (common_PA_elements sample).el_amp.getD i 0 = 1 ∧
      (common_PA_elements sample).el_phi.getD i 0 =
        ((i : ℝ) - ((sample.el_num : ℝ) - 1) / 2) * sample.el_phs) :=
  ⟨by decide, common_PA_elements_spec sample (by decide)⟩

/-- Witness for C3 at `sample` with `pr = 1`, `N = 2`. -/
theorem sweep_length_and_phase_total_witness :
    (0 : ℤ) < 2 ∧
    (((animate 1 2 sample).2.length : ℤ) = 2 ∧
    (animate 1 2 sample).1.el_phs = sample.el_phs + 1) :=
  ⟨by decide, sweep_length_and_phase_total sample 1 2 (by decide)⟩

/-- Witness for C4 at `sample`. -/
theorem calc_field_shapes_witness :
    2 ≤ sample.res ∧
    (isShape (calc_field sample).z sample.res sample.res ∧
    isShape (calc_field sample).gx sample.res sample.res ∧
    isShape (calc_field sample).gy sample.res sample.res) :=
  ⟨by decide, calc_field_shapes sample (by decide)⟩

/-- Witness for C5 at `sample`, grid point `(0, 1)`. -/
theorem degenerate_element_counts_witness :
    (0 : ℕ) < sample.res ∧ (1 : ℕ) < sample.res ∧
    ((sample.el_num = 0 → entry (calc_field (common_PA_elements sample)).z 0 1 = 0) ∧
    (sample.el_num = 1 → entry (calc_field (common_PA_elements sample)).z 0 1 =
      (common_PA_elements sample).el_amp.getD 0 0 * Real.sin
        (Real.sqrt
          (((gridAxis sample).getD 1 0 - (common_PA_elements sample).el_x.getD 0 0) ^ 2 +
            ((gridAxis sample).getD 0 0 - (common_PA_elements sample).el_y.getD 0 0) ^ 2) +
          (common_PA_elements sample).el_phi.getD 0 0))) :=
  ⟨by decide, by decide, degenerate_element_counts sample 0 1 (by decide) (by decide)⟩

/-- Witness for C6 at `sample`, grid point `(0, 1)`. -/
theorem broadside_reflection_symmetry_witness :
    sample.el_phs = 0 ∧ (0 : ℕ) < sample.res ∧ (1 : ℕ) < sample.res ∧
    entry (calc_field (common_PA_elements sample)).z 0 1 =
      entry (calc_field (common_PA_elements sample)).z 0 (sample.res - 1 - 1) :=
  ⟨rfl, by decide, by decide,
    broadside_reflection_symmetry sample rfl 0 1 (by decide) (by decide)⟩

/-- Witness for C7 at `sample` and `sample2`: equal parameters, different
layout/field junk. -/
theorem generator_synthesizer_deterministic_witness :
    sample.res = sample2.res ∧ sample.rng = sample2.rng ∧
    sample.el_sep = sample2.el_sep ∧ sample.el_num = sample2.el_num ∧
    sample.el_phs = sample2.el_phs ∧
    (fieldOf (calc_field (common_PA_elements sample)) =
      fieldOf (calc_field (common_PA_elements sample2)) ∧
    layoutOf (calc_field (common_PA_elements sample)) =
      layoutOf (calc_field (common_PA_elements sample2))) :=
  ⟨rfl, rfl, rfl, rfl, rfl,
    generator_synthesizer_deterministic sample sample2 rfl rfl rfl rfl rfl⟩

/-- Witness for the amended C8 at `sample` with `frames = -1`. -/
theorem animate_nonpositive_frames_noop_witness :
    (-1 : ℤ) ≤ 0 ∧ animate 1 (-1) sample = (sample, []) :=
  ⟨by decide, animate_nonpositive_frames_noop 1 (-1) sample (by decide)⟩

/-- Witness for C9 at `sample` with `pr = 1`, `N = 2`. -/
theorem sweep_phase_schedule_witness :
    (0 : ℤ) < 2 ∧
    ((∀ i : ℕ, i < (2 : ℤ).toNat →
      (animate 1 2 sample).2.getD i frameDefault =
        runFrame { sample with el_phs := sample.el_phs + (i : ℝ) * (1 / ((2 : ℤ) : ℝ)) }) ∧
    (animate 1 2 sample).1.el_phs = sample.el_phs + 1) :=
  ⟨by decide, sweep_phase_schedule sample 1 2 (by decide)⟩

end Parray

end
